import Mathlib

/-!
Shallow embedding of the resolution engine of the logos IoC container
(src/logos/context.py) and proofs of the specification claims about it.

Python values that flow through the container are modelled by the
inductive type Value (ints, strings, dicts as association lists in
insertion order, lists).  Exceptions are modelled with Except over Err.
-/

set_option maxHeartbeats 1000000

/-- Python values relevant to parameter interpolation: dicts keep
insertion order as association lists. -/
inductive Value where
  | int : Int → Value
  | str : String → Value
  | dict : List (String × Value) → Value
  | list : List Value → Value

/-- Python exceptions raised by the engine: ContainerException carries
its message, ValueError likewise; IndexError models an out-of-range
list subscript. -/
inductive Err where
  | containerException : String → Err
  | valueError : String → Err
  | indexError : Err
deriving DecidableEq, Repr

/-- Lookup in an association list, mirroring Python dict lookup
(first binding for the key; dicts keep keys unique). -/
def alookup (l : List (String × Value)) (k : String) : Option Value :=
  (l.find? (fun kv => kv.1 = k)).map (·.2)

theorem optionMapM_cons {α β : Type} (g : α → Option β) (a : α) (l : List α)
    (b : β) (bs : List β) (ha : g a = some b) (hl : l.mapM g = some bs) :
    (a :: l).mapM g = some (b :: bs) := by
  rw [List.mapM_cons, ha, hl]
  rfl

namespace Parameter

/-- Embeds Python str.replace applied with an empty replacement:
removes every occurrence of the percent character from the string.
Corresponds to value.replace(chr(37), empty) in Parameter.resolve_value. -/
def removePct (s : String) : String :=
  ⟨s.data.filter (fun c => c ≠ '%')⟩

/-- Is the first character of the list a percent sign (false on the
empty list). -/
def headIsPct (l : List Char) : Bool :=
  match l with
  | [] => false
  | c :: _ => c = '%'

/-- Embeds the guard value.startswith and value.endswith on the percent
character in Parameter.resolve_value: the first and the last character
are both percent signs (the one-character string of a single percent
sign passes the guard, as it does in Python). -/
def isPlaceholder (s : String) : Bool :=
  headIsPct s.data && headIsPct s.data.reverse

/-- Embeds Parameter.resolve_value(value, container).  The container is
an abstract get : String → Option Value (none models a raised lookup
error, which propagates).  The Python recursion can diverge (a
placeholder resolving to itself) and is stack-bounded, so the embedding
consumes one unit of fuel per recursive call; every claim is stated
with enough fuel.  Dict comprehension and list comprehension are the
mapM over entries; a whole string passing the startswith/endswith guard
resolves the name with every percent character removed and recursively
interpolates the result; everything else is returned verbatim. -/
def resolveValue (get : String → Option Value) : Nat → Value → Option Value
  | 0, _ => none
  | f + 1, v =>
    match v with
    | .dict kvs =>
      (kvs.mapM (fun kv => (resolveValue get f kv.2).map (fun r => (kv.1, r)))).map
        Value.dict
    | .list xs => (xs.mapM (fun x => resolveValue get f x)).map Value.list
    | .str s =>
      if isPlaceholder s then
        match get (removePct s) with
        | none => none
        | some w => resolveValue get f w
      else some (.str s)
    | .int n => some (.int n)

end Parameter

/-- Embeds Service.__init__(klz, factory, parameters): keeps the class
reference when given, else the factory reference, else raises
ValueError.  When both are given the class reference wins and the
factory reference is silently dropped. -/
inductive ServiceRef where
  | klz : String → ServiceRef
  | factory : String → ServiceRef
deriving DecidableEq, Repr

/-- A constructed Service resource: exactly the attributes
Service.__init__ leaves on the instance. -/
structure Service where
  ref : ServiceRef
  parameters : List (String × Value)

namespace Service

/-- Embeds the body of Service.__init__: the branch on klz and factory
and the parameters default. -/
def mk? (klz : Option String) (factory : Option String)
    (parameters : Option (List (String × Value))) : Except Err Service :=
  match klz with
  | some k => .ok ⟨.klz k, parameters.getD []⟩
  | none =>
    match factory with
    | some f => .ok ⟨.factory f, parameters.getD []⟩
    | none => .error (.valueError "class or factory is required")

end Service

/-! ## Layered registry (StackContainer) -/

/-- An abstract registry layer: the AbstractContainer interface, a pair
of a membership test and a resolution function. -/
structure Layer where
  has : String → Bool
  get : String → Except Err Value

namespace StackContainer

/-- Embeds the for-loop of StackContainer.get: the first container in
the given order whose has(name) is true. -/
def firstWithName : List Layer → String → Option Layer
  | [], _ => none
  | c :: rest, n => if c.has n then some c else firstWithName rest n

/-- Embeds StackContainer.get: walk containers in reversed order, return
the first hit; otherwise delegate to containers[0], whose own error is
raised (IndexError if the stack is empty). -/
def get (containers : List Layer) (name : String) : Except Err Value :=
  match firstWithName containers.reverse name with
  | some c => c.get name
  | none =>
    match containers with
    | [] => .error .indexError
    | c :: _ => c.get name

/-- Embeds StackContainer.has: any layer has the name. -/
def has (containers : List Layer) (name : String) : Bool :=
  containers.any (fun c => c.has name)

end StackContainer

/-- A flat Container whose resources are all literal Parameters:
has(name) is key membership, get(name) resolves the Parameter (a
literal resolves to itself) and an unknown name raises the
ContainerException naming the requested resource. -/
def paramContainer (resources : List (String × Value)) : Layer where
  has := fun n => (alookup resources n).isSome
  get := fun n =>
    match alookup resources n with
    | none => .error (.containerException (n ++ " not in container"))
    | some v => .ok v

/-! ## Regular expressions as used by ResourceGroup and find

The patterns the engine meets are sequences of literal characters and
dots (match any character), optionally anchored with a leading caret.
re.match anchors at the start of the string either way; re.sub without
MULTILINE can match an anchored pattern only at position 0, and an
unanchored pattern at every leftmost non-overlapping position. -/

/-- One regex atom: a literal character or the dot metacharacter. -/
inductive PChar where
  | lit : Char → PChar
  | anyc : PChar
deriving DecidableEq, Repr

/-- A pattern: whether it started with a caret, and its atoms. -/
structure RePat where
  anchored : Bool
  body : List PChar
deriving DecidableEq, Repr

/-- Does one atom match one character. -/
def pcharMatches : PChar → Char → Bool
  | .lit c, d => c = d
  | .anyc, _ => true

/-- Does the whole atom list match a prefix of the character list. -/
def matchesAt : List PChar → List Char → Bool
  | [], _ => true
  | _ :: _, [] => false
  | pc :: pr, c :: cr => pcharMatches pc c && matchesAt pr cr

/-- Embeds re.match(pattern, name): match at the start of the string
(the caret is redundant for match). -/
def reMatch (pat : RePat) (s : String) : Bool :=
  matchesAt pat.body s.data

/-- Scanning loop of re.sub with an empty replacement for a non-empty
unanchored pattern: at each position remove a leftmost match or keep
one character and advance.  Each step consumes at least one character,
so running it with the list length as fuel (see subScan) never reaches
the out-of-fuel case. -/
def subScanGo (pc : PChar) (pr : List PChar) : Nat → List Char → List Char
  | _, [] => []
  | 0, l => l
  | f + 1, c :: rest =>
    if matchesAt (pc :: pr) (c :: rest) then
      subScanGo pc pr f (rest.drop pr.length)
    else c :: subScanGo pc pr f rest

/-- Scanning pass of re.sub over a whole character list. -/
def subScan (pc : PChar) (pr : List PChar) (l : List Char) : List Char :=
  subScanGo pc pr l.length l

/-- Embeds re.sub(pattern, empty, s): an anchored pattern is removed at
position 0 only (no MULTILINE), an unanchored one at every leftmost
non-overlapping occurrence; an empty body substitutes nothing. -/
def reSub (pat : RePat) (s : String) : String :=
  match pat.body with
  | [] => s
  | pc :: pr =>
    if pat.anchored then
      if matchesAt pat.body s.data then ⟨s.data.drop pat.body.length⟩ else s
    else ⟨subScan pc pr s.data⟩

/-- Embeds the wrapper's find(pattern): the names known across the
ambient stack (the resources_names union, passed explicitly) that
re.match the pattern. -/
def findNames (ambientNames : List String) (pat : RePat) : List String :=
  ambientNames.filter (fun n => reMatch pat n)

namespace ResourceGroup

/-- Embeds ResourceGroup.resolve: a dict (association list in insertion
order) mapping sub(pattern, empty, v) to v over all v in find(pattern). -/
def resolve (pat : RePat) (ambientNames : List String) : List (String × String) :=
  (findNames ambientNames pat).map (fun v => (reSub pat v, v))

end ResourceGroup

/-! ## Scope (Context) -/

namespace Context

/-- A Scope: its local runtime cache (a dict in insertion order) and
its layered registry, abstracted to its get function.  Resolution
through the registry is the observable whose invocation count the
caching claims speak about. -/
structure State where
  runtime : List (String × Value)
  container : String → Except Err Value

/-- Embeds Context.get(name): on a cache miss resolve through the
layered registry and store the result, then answer from the cache.
The third component counts how many times the underlying registry get
was invoked during the call (0 on a hit, 1 on a miss). -/
def get (c : State) (name : String) : Except Err (Option Value) × State × Nat :=
  if (alookup c.runtime name).isNone then
    match c.container name with
    | .error e => (.error e, c, 1)
    | .ok v =>
      let c2 : State := { c with runtime := c.runtime ++ [(name, v)] }
      (.ok (alookup c2.runtime name), c2, 1)
  else (.ok (alookup c.runtime name), c, 0)

/-- Embeds Context.has(name): cached locally or known to the registry
(membership abstracted to a predicate on the registry). -/
def hasName (c : State) (containerHas : String → Bool) (name : String) : Bool :=
  (alookup c.runtime name).isSome || containerHas name

/-- Embeds Context.__enter__: append this instance (identified by its
object id) to the task-local active-scope stack. -/
def enter (instances : List Nat) (c : Nat) : List Nat :=
  instances ++ [c]

/-- Embeds Context.__exit__: contexts.index(self) finds the FIRST
occurrence (raising ValueError when absent) and pop removes it; the
exception information the with-statement passes in is ignored. -/
def exitScope (instances : List Nat) (c : Nat) (_excInfo : Option Err) :
    Except Err (List Nat) :=
  if c ∈ instances then .ok (instances.erase c)
  else .error (.valueError "x is not in list")

end Context

/-! ## Scope derivation (Context.new_from) with an explicit dict heap

To speak about mutation (the derived cache is written, the parent cache
is not) the dicts involved live in a small heap of dicts addressed by
index, and cached values are Python objects with an identity and a
clone capability flag; clone allocates a fresh identity. -/

/-- A cached Python object: its identity and whether it has a clone
attribute. -/
structure PyObj where
  ref : Nat
  cloneable : Bool
deriving DecidableEq, Repr

/-- Lookup in a dict of cached objects. -/
def olookup (l : List (String × PyObj)) (k : String) : Option PyObj :=
  (l.find? (fun kv => kv.1 = k)).map (·.2)

/-- Object allocator: identities below nextRef are in use. -/
structure Alloc where
  nextRef : Nat
deriving DecidableEq, Repr

/-- Cloning an object yields a distinct fresh object with the same
capabilities. -/
def cloneObj (a : Alloc) (v : PyObj) : PyObj × Alloc :=
  (⟨a.nextRef, v.cloneable⟩, ⟨a.nextRef + 1⟩)

/-- A heap of runtime dicts addressed by index. -/
def DHeap := List (List (String × PyObj))

/-- Read a dict out of the heap. -/
def dget (h : DHeap) (r : Nat) : List (String × PyObj) :=
  h.getD r []

/-- Overwrite a dict in the heap. -/
def dset (h : DHeap) (r : Nat) (d : List (String × PyObj)) : DHeap :=
  h.set r d

namespace Context

/-- Embeds the for-loop of Context.new_from over the parent cache's
items: entries absent from the runtime dict whose value has a clone
attribute are cloned into the runtime dict (addressed by orr). -/
def newFromLoop (a : Alloc) (items : List (String × PyObj)) (h : DHeap)
    (orr : Nat) : DHeap × Alloc :=
  match items with
  | [] => (h, a)
  | (name, value) :: rest =>
    if (olookup (dget h orr) name).isNone && value.cloneable then
      let (cv, a2) := cloneObj a value
      newFromLoop a2 rest (dset h orr (dget h orr ++ [(name, cv)])) orr
    else newFromLoop a rest h orr

/-- Embeds Context.new_from(context, runtime): iterate the parent's
runtime items seeding the runtime dict; the parent cache lives at
parentRef, the runtime-overrides dict at orr (the child keeps orr as
its cache). -/
def newFrom (h : DHeap) (a : Alloc) (parentRef orr : Nat) : DHeap × Alloc :=
  newFromLoop a (dget h parentRef) h orr

end Context

/-! ## Ambient scope accessor (__ContextWrapper) -/

/-- The observable identity of a root Context the wrapper hands out:
the Context object's identity, the identity of the cached underlying
StackContainer it wraps, and its runtime cache. -/
structure RootCtx where
  id : Nat
  stackId : Nat
  runtime : List (String × Value)

/-- The wrapper's state: the lazily built _stack (None until first
access, then the identity of the StackContainer built around the
ApplicationContainer singleton) plus an object-identity allocator. -/
structure WrapperState where
  stackRef : Option Nat
  nextId : Nat
deriving DecidableEq, Repr

/-- Embeds the property __ContextWrapper.container: first build _stack
if still None; then return the top of the active-scope stack when
non-empty, and otherwise construct a NEW root Context (fresh object,
empty cache) around the cached _stack. -/
def containerAccess (w : WrapperState) (instances : List RootCtx) :
    RootCtx × WrapperState :=
  let p :=
    match w.stackRef with
    | some s => (s, w)
    | none => (w.nextId, ⟨some w.nextId, w.nextId + 1⟩)
  match instances.getLast? with
  | some c => (c, p.2)
  | none =>
    ({ id := p.2.nextId, stackId := p.1, runtime := [] },
     { p.2 with nextId := p.2.nextId + 1 })

/-! ## Application container singleton -/

namespace ApplicationContainer

/-- Embeds ApplicationContainer.__new__: the class attribute instance
is set by the first construction; any later construction raises and
leaves the stored instance untouched.  The state is the class
attribute (None or the identity of the stored instance); fresh is the
identity the allocation would produce. -/
def newInstance (inst : Option Nat) (fresh : Nat) :
    Except Err Nat × Option Nat :=
  match inst with
  | none => (.ok fresh, some fresh)
  | some i =>
    (.error (.containerException "application container already initialized"),
     some i)

/-- A heap of Python list objects holding module-name lists, addressed
by index. -/
def LHeap := List (List String)

/-- Read a list object out of the heap. -/
def lgetM (h : LHeap) (r : Nat) : List String :=
  h.getD r []

/-- Overwrite a list object in the heap. -/
def lsetM (h : LHeap) (r : Nat) (v : List String) : LHeap :=
  h.set r v

/-- The attributes ApplicationContainer.__init__ stores: the modules
attribute aliases the caller's list object (it keeps the reference,
not a copy). -/
structure Attrs where
  modulesRef : Nat
  configuration : List (String × Value)

/-- Embeds ApplicationContainer.__init__(modules, configuration):
appends the built-in module name to the caller's list object in place
and stores the same reference as self.modules. -/
def init (h : LHeap) (modulesRef : Nat)
    (configuration : Option (List (String × Value))) : LHeap × Attrs :=
  (lsetM h modulesRef (lgetM h modulesRef ++ ["logos"]),
   { modulesRef := modulesRef, configuration := configuration.getD [] })

end ApplicationContainer

/-! ## Helper lemmas about lookups and the heaps -/

theorem alookup_append (l₁ l₂ : List (String × Value)) (k : String) :
    alookup (l₁ ++ l₂) k = (alookup l₁ k).or (alookup l₂ k) := by
  simp only [alookup, List.find?_append]
  cases l₁.find? (fun kv => kv.1 = k) <;> simp

theorem alookup_append_self (l : List (String × Value)) (k : String) (v : Value)
    (h : alookup l k = none) : alookup (l ++ [(k, v)]) k = some v := by
  rw [alookup_append, h]
  simp [alookup]

theorem olookup_append (l₁ l₂ : List (String × PyObj)) (k : String) :
    olookup (l₁ ++ l₂) k = (olookup l₁ k).or (olookup l₂ k) := by
  simp only [olookup, List.find?_append]
  cases l₁.find? (fun kv => kv.1 = k) <;> simp

theorem olookup_cons (kv : String × PyObj) (rest : List (String × PyObj))
    (k : String) :
    olookup (kv :: rest) k = if kv.1 = k then some kv.2 else olookup rest k := by
  by_cases hkv : kv.1 = k <;> simp [olookup, List.find?_cons, hkv]

theorem olookup_eq_none_of_not_mem (l : List (String × PyObj)) (k : String)
    (h : k ∉ l.map Prod.fst) : olookup l k = none := by
  induction l with
  | nil => rfl
  | cons kv rest ih =>
    simp only [List.map_cons, List.mem_cons, not_or] at h
    rw [olookup_cons, if_neg (fun he : kv.1 = k => h.1 he.symm)]
    exact ih h.2

theorem listGetD_set_self {α : Type} (l : List α) (i : Nat) (a d : α)
    (h : i < l.length) : (l.set i a).getD i d = a := by
  rw [List.getD_eq_getElem?_getD, List.getElem?_set_eq_of_lt a h]
  rfl

theorem listGetD_set_ne {α : Type} (l : List α) (i j : Nat) (a d : α)
    (h : i ≠ j) : (l.set i a).getD j d = l.getD j d := by
  rw [List.getD_eq_getElem?_getD, List.getElem?_set_ne h,
    List.getD_eq_getElem?_getD]

theorem dget_dset_self (h : DHeap) (r : Nat) (d : List (String × PyObj))
    (hr : r < h.length) : dget (dset h r d) r = d :=
  listGetD_set_self h r d [] hr

theorem dget_dset_ne (h : DHeap) (r r2 : Nat) (d : List (String × PyObj))
    (hne : r ≠ r2) : dget (dset h r d) r2 = dget h r2 :=
  listGetD_set_ne h r r2 d [] hne

theorem dset_length (h : DHeap) (r : Nat) (d : List (String × PyObj)) :
    (dset h r d).length = h.length := by
  simp [dset]

/-! ## C2: Service construction -/

/-- C2 counterexample: constructing a Service with BOTH a class
reference and a factory reference does not fail; it succeeds and keeps
the class reference, dropping the factory reference. -/
theorem service_both_refs_constructs :
    Service.mk? (some "m:C") (some "f") none = .ok ⟨.klz "m:C", []⟩ := rfl

/-- C2 (amended): a Service with neither class nor factory reference
fails at construction time with the configuration ValueError; a class
reference always constructs (any factory reference is ignored); a
factory reference alone constructs with the factory reference. -/
theorem service_init_cases (k fs : String) (f : Option String)
    (p : Option (List (String × Value))) :
    Service.mk? none none p = .error (.valueError "class or factory is required")
    ∧ Service.mk? (some k) f p = .ok ⟨.klz k, p.getD []⟩
    ∧ Service.mk? none (some fs) p = .ok ⟨.factory fs, p.getD []⟩ :=
  ⟨rfl, rfl, rfl⟩

/-! ## C9: application container singleton guard -/

/-- C9: the first construction of the ApplicationContainer succeeds and
stores the instance; every later construction attempt raises the
already-initialized ContainerException and leaves the stored first
instance in place. -/
theorem applicationContainer_singleton (i fresh fresh2 : Nat) :
    ApplicationContainer.newInstance none fresh = (.ok fresh, some fresh)
    ∧ ApplicationContainer.newInstance (some i) fresh2 =
      (.error (.containerException "application container already initialized"),
       some i) :=
  ⟨rfl, rfl⟩

/-! ## C10: the modules list is mutated in place -/

/-- C10: ApplicationContainer.__init__ appends the built-in module name
to the very list object the caller passed (the caller's list grows by
one entry, every other list object is untouched, no new list is
allocated) and stores that same reference as self.modules. -/
theorem applicationContainer_init_appends (h : ApplicationContainer.LHeap)
    (r : Nat) (cfg : Option (List (String × Value))) (hr : r < h.length) :
    ApplicationContainer.lgetM (ApplicationContainer.init h r cfg).1 r =
      ApplicationContainer.lgetM h r ++ ["logos"]
    ∧ (ApplicationContainer.lgetM (ApplicationContainer.init h r cfg).1 r).length =
      (ApplicationContainer.lgetM h r).length + 1
    ∧ (ApplicationContainer.init h r cfg).1.length = h.length
    ∧ (∀ r2, r ≠ r2 →
        ApplicationContainer.lgetM (ApplicationContainer.init h r cfg).1 r2 =
          ApplicationContainer.lgetM h r2)
    ∧ (ApplicationContainer.init h r cfg).2.modulesRef = r := by
  refine ⟨?_, ?_, ?_, ?_, rfl⟩
  · exact listGetD_set_self h r _ [] hr
  · have h1 : ApplicationContainer.lgetM (ApplicationContainer.init h r cfg).1 r =
        ApplicationContainer.lgetM h r ++ ["logos"] :=
      listGetD_set_self h r _ [] hr
    rw [h1]
    simp
  · simp [ApplicationContainer.init, ApplicationContainer.lsetM]
  · intro r2 hne
    exact listGetD_set_ne h r r2 _ [] hne

/-- C10 witness: on a heap holding one module list, construction grows
that list to include the built-in module. -/
theorem applicationContainer_init_appends_witness :
    (0 : Nat) < ([["app"]] : ApplicationContainer.LHeap).length
    ∧ ApplicationContainer.lgetM
        (ApplicationContainer.init [["app"]] 0 none).1 0 = ["app", "logos"] :=
  ⟨by decide, (applicationContainer_init_appends [["app"]] 0 none (by decide)).1⟩

/-! ## C7: scope activation stack -/

/-- C7 counterexample: entering a Scope instance that is already on the
active stack beneath another scope and exiting it removes the FIRST
occurrence, so the stack is not restored to its prior contents (prior
stack 0,1 becomes 1,0). -/
theorem enter_exitScope_not_restored :
    Context.exitScope (Context.enter [0, 1] 0) 0 none = .ok [1, 0]
    ∧ ([1, 0] : List Nat) ≠ [0, 1] := by
  constructor
  · rfl
  · decide

/-- C7 (amended): entering pushes the instance on the stack and exiting
removes the first occurrence of exactly that instance, independently of
any exception information passed in; whenever the entered instance was
not already on the stack, the enter/exit pair restores the stack to its
prior contents. -/
theorem enter_exitScope_restores (s : List Nat) (c : Nat) (exc : Option Err)
    (hc : c ∉ s) : Context.exitScope (Context.enter s c) c exc = .ok s := by
  have hmem : c ∈ s ++ [c] := by simp
  unfold Context.exitScope Context.enter
  rw [if_pos hmem, List.erase_append_right _ hc, List.erase_cons_head,
    List.append_nil]

/-- C7 witness: a concrete enter/exit pair around a fresh scope instance
restores the stack, also when exception information is passed to exit. -/
theorem enter_exitScope_restores_witness :
    (5 : Nat) ∉ ([1, 2] : List Nat)
    ∧ Context.exitScope (Context.enter [1, 2] 5) 5 (some .indexError) = .ok [1, 2] :=
  ⟨by decide, enter_exitScope_restores [1, 2] 5 (some .indexError) (by decide)⟩

/-! ## C5: scope cache is append-only and memoizing -/

/-- A registry used by the caching witness: one service name resolving
to a value, everything else raising the not-in-container error. -/
def svcContainer : String → Except Err Value := fun n =>
  if n = "svc" then .ok (.int 7)
  else .error (.containerException (n ++ " not in container"))

/-- A fresh Scope over svcContainer with an empty cache. -/
def svcState : Context.State := ⟨[], svcContainer⟩

/-- C5: resolving a name in a Scope where it is not cached invokes the
underlying registry exactly once and appends the result to the cache;
the next get of the same name on the resulting Scope returns the
identical cached value, leaves the cache unchanged and invokes the
registry zero times (hence any number of further gets re-invoke nothing
and two successive gets resolve exactly once in total). -/
theorem scope_cache_once (c : Context.State) (name : String) (v : Value)
    (hk : alookup c.runtime name = none) (hres : c.container name = .ok v) :
    Context.get c name =
      (.ok (some v), { c with runtime := c.runtime ++ [(name, v)] }, 1)
    ∧ Context.get { c with runtime := c.runtime ++ [(name, v)] } name =
      (.ok (some v), { c with runtime := c.runtime ++ [(name, v)] }, 0) := by
  have hk2 : alookup (c.runtime ++ [(name, v)]) name = some v :=
    alookup_append_self c.runtime name v hk
  refine ⟨?_, ?_⟩ <;> simp [Context.get, hk, hres, hk2]

/-- C5 witness: a concrete Scope caches a concrete service value after
one registry invocation and answers the second get from the cache. -/
theorem scope_cache_once_witness :
    alookup svcState.runtime "svc" = none
    ∧ svcState.container "svc" = .ok (.int 7)
    ∧ Context.get svcState "svc" =
        (.ok (some (.int 7)), { svcState with runtime := [("svc", .int 7)] }, 1)
    ∧ Context.get { svcState with runtime := [("svc", .int 7)] } "svc" =
        (.ok (some (.int 7)), { svcState with runtime := [("svc", .int 7)] }, 0) :=
  ⟨rfl, rfl,
   (scope_cache_once svcState "svc" (.int 7) rfl rfl).1,
   (scope_cache_once svcState "svc" (.int 7) rfl rfl).2⟩

/-! ## C4: layered registry lookup -/

theorem firstWithName_isSome_iff (cs : List Layer) (n : String) :
    (StackContainer.firstWithName cs n).isSome = true
      ↔ ∃ l ∈ cs, l.has n = true := by
  induction cs with
  | nil => simp [StackContainer.firstWithName]
  | cons c rest ih =>
    simp only [StackContainer.firstWithName]
    by_cases hc : c.has n = true
    · rw [if_pos hc]
      simp only [Option.isSome_some, true_iff]
      exact ⟨c, List.mem_cons_self c rest, hc⟩
    · rw [if_neg hc, ih]
      constructor
      · rintro ⟨l, hl, hln⟩
        exact ⟨l, List.mem_cons_of_mem c hl, hln⟩
      · rintro ⟨l, hl, hln⟩
        rcases List.mem_cons.mp hl with h1 | h2
        · subst h1
          exact absurd hln hc
        · exact ⟨l, h2, hln⟩

theorem stackHas_iff (cs : List Layer) (n : String) :
    StackContainer.has cs n = true ↔ ∃ l ∈ cs, l.has n = true := by
  simp [StackContainer.has, List.any_eq_true]

/-- C4: layered lookup walks layers from the most recently appended to
the least recently appended and answers from the first layer having the
name; when no layer has it, the request is delegated to the bottom-most
(first) layer so that this layer's own error is raised; has(name) holds
iff some layer has the name; and over the two-layer example the later
layer wins in either order. -/
theorem stackContainer_lookup (cs : List Layer) (c c0 : Layer)
    (rest : List Layer) (name : String) :
    (c.has name = true →
      StackContainer.get (cs ++ [c]) name = c.get name)
    ∧ (c.has name = false → StackContainer.has cs name = true →
      StackContainer.get (cs ++ [c]) name = StackContainer.get cs name)
    ∧ ((∀ l ∈ cs, l.has name = false) → cs = c0 :: rest →
      StackContainer.get cs name = c0.get name)
    ∧ (StackContainer.has cs name = true ↔ ∃ l ∈ cs, l.has name = true)
    ∧ StackContainer.get
        [paramContainer [("k", .int 1)], paramContainer [("k", .int 2)]] "k" =
        .ok (.int 2)
    ∧ StackContainer.get
        [paramContainer [("k", .int 2)], paramContainer [("k", .int 1)]] "k" =
        .ok (.int 1) := by
  refine ⟨?_, ?_, ?_, stackHas_iff cs name, rfl, rfl⟩
  · intro hc
    simp [StackContainer.get, StackContainer.firstWithName, List.reverse_append,
      hc]
  · intro hc hhas
    have hsome : (StackContainer.firstWithName cs.reverse name).isSome = true := by
      rw [firstWithName_isSome_iff]
      rcases (stackHas_iff cs name).mp hhas with ⟨l, hl, hln⟩
      exact ⟨l, List.mem_reverse.mpr hl, hln⟩
    rcases Option.isSome_iff_exists.mp hsome with ⟨l, hfw⟩
    have hrev : (cs ++ [c]).reverse = c :: cs.reverse := by
      simp
    unfold StackContainer.get
    rw [hrev]
    simp only [StackContainer.firstWithName, if_neg (by simp [hc] : ¬c.has name = true)]
    rw [hfw]
  · intro hall hcs
    have hnone : StackContainer.firstWithName cs.reverse name = none := by
      rcases hfw : StackContainer.firstWithName cs.reverse name with _ | l
      · rfl
      · have : (StackContainer.firstWithName cs.reverse name).isSome = true := by
          rw [hfw]
          rfl
        rcases (firstWithName_isSome_iff cs.reverse name).mp this with ⟨l2, hl2, hln2⟩
        exact absurd hln2 (by simp [hall l2 (List.mem_reverse.mp hl2)])
    unfold StackContainer.get
    rw [hnone, hcs]

/-- C4 witness: in the two-layer example the most recently appended
layer has the name and the layered get answers with that layer's own
resolution. -/
theorem stackContainer_lookup_witness :
    (paramContainer [("k", Value.int 2)]).has "k" = true
    ∧ StackContainer.get
        ([paramContainer [("k", Value.int 1)]] ++ [paramContainer [("k", Value.int 2)]])
        "k" = (paramContainer [("k", Value.int 2)]).get "k" :=
  ⟨rfl,
   (stackContainer_lookup [paramContainer [("k", Value.int 1)]]
     (paramContainer [("k", Value.int 2)]) (paramContainer [("k", Value.int 2)])
     [] "k").1 rfl⟩

/-! ## C3: parameter interpolation -/

/-- A registry distinguishing the name with all percent characters
removed ("ab") from the name with only the delimiters stripped
("a%b"). -/
def pctGet : String → Option Value := fun n =>
  if n = "ab" then some (.int 7)
  else if n = "a%b" then some (.int 9)
  else none

/-- The registry of the round-trip example: x resolves to 5. -/
def xGet : String → Option Value := fun n =>
  if n = "x" then some (.int 5) else none

/-- C3 counterexample: resolving the placeholder string of percent, a,
percent, b, percent does not resolve the delimiter-stripped name
(which the registry maps to 9) but the name with EVERY percent
character removed (which the registry maps to 7): str.replace removes
all occurrences, not just the delimiters. -/
theorem resolve_value_strips_all_pct :
    Parameter.resolveValue pctGet 5 (.str "%a%b%") = some (.int 7)
    ∧ pctGet "ab" = some (.int 7)
    ∧ pctGet "a%b" = some (.int 9)
    ∧ some (Value.int 7) ≠ some (Value.int 9) :=
  ⟨rfl, rfl, rfl, by simp⟩

/-- C3 (amended): interpolation recurses into each dict value and each
list element to arbitrary depth; a string is a placeholder exactly when
it starts and ends with a percent sign, in which case the name obtained
by removing every percent character from the string (which coincides
with stripping the delimiters whenever the inner name contains no
percent sign) is resolved from the registry and the result is
recursively interpolated; an embedded placeholder inside a larger
string is left untouched; non-string scalars are returned verbatim;
and the round-trip example resolves as stated. -/
theorem resolve_value_interpolation (get : String → Option Value) (f : Nat)
    (s k : String) (n : Int) (v v2 : Value)
    (rest rest2 : List (String × Value)) (xs xs2 : List Value) :
    Parameter.resolveValue get (f + 1) (.int n) = some (.int n)
    ∧ (Parameter.isPlaceholder s = false →
        Parameter.resolveValue get (f + 1) (.str s) = some (.str s))
    ∧ (Parameter.isPlaceholder s = true →
        Parameter.resolveValue get (f + 1) (.str s) =
          match get (Parameter.removePct s) with
          | none => none
          | some w => Parameter.resolveValue get f w)
    ∧ (Parameter.resolveValue get f v = some v2 →
        Parameter.resolveValue get (f + 1) (.dict rest) = some (.dict rest2) →
        Parameter.resolveValue get (f + 1) (.dict ((k, v) :: rest)) =
          some (.dict ((k, v2) :: rest2)))
    ∧ (Parameter.resolveValue get f v = some v2 →
        Parameter.resolveValue get (f + 1) (.list xs) = some (.list xs2) →
        Parameter.resolveValue get (f + 1) (.list (v :: xs)) =
          some (.list (v2 :: xs2)))
    ∧ Parameter.resolveValue xGet 5
        (.dict [("a", .str "%x%"), ("b", .list [.int 1, .str "%x%"])]) =
        some (.dict [("a", .int 5), ("b", .list [.int 1, .int 5])])
    ∧ Parameter.resolveValue xGet 3 (.str "see %x% here") =
        some (.str "see %x% here") := by
  refine ⟨rfl, ?_, ?_, ?_, ?_, rfl, rfl⟩
  · intro hb
    simp [Parameter.resolveValue, hb]
  · intro hc
    simp [Parameter.resolveValue, hc]
  · intro hv hrest
    have hrest2 :
        rest.mapM (fun kv =>
          (Parameter.resolveValue get f kv.2).map (fun r => (kv.1, r))) =
        some rest2 := by
      simp only [Parameter.resolveValue] at hrest
      rcases hm : rest.mapM (fun kv =>
          (Parameter.resolveValue get f kv.2).map (fun r => (kv.1, r))) with _ | l
      · rw [hm] at hrest
        simp at hrest
      · rw [hm] at hrest
        have hrest4 : some (Value.dict l) = some (Value.dict rest2) := hrest
        injection hrest4 with h2
        injection h2 with h3
        rw [hm, h3]
    have hfa : (fun kv =>
        (Parameter.resolveValue get f kv.2).map (fun r => (kv.1, r))) (k, v) =
        some (k, v2) := by
      simp [hv]
    have hall := optionMapM_cons _ (k, v) rest (k, v2) rest2 hfa hrest2
    show (((k, v) :: rest).mapM (fun kv =>
        (Parameter.resolveValue get f kv.2).map (fun r => (kv.1, r)))).map
        Value.dict = some (.dict ((k, v2) :: rest2))
    rw [hall]
    rfl
  · intro hv hxs
    have hxs2 : xs.mapM (fun x => Parameter.resolveValue get f x) = some xs2 := by
      simp only [Parameter.resolveValue] at hxs
      rcases hm : xs.mapM (fun x => Parameter.resolveValue get f x) with _ | l
      · rw [hm] at hxs
        simp at hxs
      · rw [hm] at hxs
        have hxs4 : some (Value.list l) = some (Value.list xs2) := hxs
        injection hxs4 with h2
        injection h2 with h3
        rw [h3]
    have hall := optionMapM_cons (fun x => Parameter.resolveValue get f x)
      v xs v2 xs2 hv hxs2
    show ((v :: xs).mapM (fun x => Parameter.resolveValue get f x)).map
        Value.list = some (.list (v2 :: xs2))
    rw [hall]
    rfl

/-- C3 witness: a plain string is not a placeholder and interpolates to
itself. -/
theorem resolve_value_interpolation_witness :
    Parameter.isPlaceholder "plain" = false
    ∧ Parameter.resolveValue xGet 1 (.str "plain") = some (.str "plain") :=
  ⟨rfl,
   (resolve_value_interpolation xGet 0 "plain" "" 0 (.int 0) (.int 0) [] [] []
     []).2.1 rfl⟩

/-! ## C1: ambient scope accessor -/

/-- C1 counterexample: with the active-scope stack empty, two
successive accesses to the wrapper's current scope construct two
DISTINCT root Contexts (object identities 1 and 2), so the second
access does not reuse the first root Scope or its memoization cache. -/
theorem containerAccess_fresh_each_time :
    (containerAccess ⟨none, 0⟩ []).1.id = 1
    ∧ (containerAccess (containerAccess ⟨none, 0⟩ []).2 []).1.id = 2
    ∧ (1 : Nat) ≠ 2 :=
  ⟨rfl, rfl, by decide⟩

/-- C1 (amended): when the active-scope stack is non-empty the wrapper
returns its top entry; the underlying StackContainer around the
ApplicationContainer singleton is built lazily on first access and
then reused for ever; but with the stack empty every access constructs
a FRESH root Context (new object identity, empty cache) around that
shared stack, so two successive empty-stack accesses share the layered
registry yet hit distinct root Scopes. -/
theorem containerAccess_lazy_stack (w : WrapperState) (instances : List RootCtx)
    (c : RootCtx) (s : Nat) :
    (instances.getLast? = some c → (containerAccess w instances).1 = c)
    ∧ (w.stackRef = some s → (containerAccess w instances).2.stackRef = some s)
    ∧ (w.stackRef = none →
        (containerAccess w instances).2.stackRef = some w.nextId)
    ∧ (w.stackRef = some s → instances = [] →
        containerAccess w instances = (⟨w.nextId, s, []⟩, ⟨some s, w.nextId + 1⟩))
    ∧ (instances = [] →
        (containerAccess (containerAccess w []).2 []).1.stackId =
          (containerAccess w []).1.stackId
        ∧ (containerAccess (containerAccess w []).2 []).1.id ≠
          (containerAccess w []).1.id) := by
  refine ⟨?_, ?_, ?_, ?_, ?_⟩
  · intro hlast
    rcases hsr : w.stackRef with _ | s2 <;>
      simp [containerAccess, hsr, hlast]
  · intro hsr
    rcases hl : instances.getLast? with _ | c2 <;>
      simp [containerAccess, hsr, hl]
  · intro hsr
    rcases hl : instances.getLast? with _ | c2 <;>
      simp [containerAccess, hsr, hl]
  · intro hsr hi
    subst hi
    simp [containerAccess, hsr]
  · intro hi
    rcases hsr : w.stackRef with _ | s2 <;>
      simp [containerAccess, hsr]

/-- C1 witness: with the stack already built and no active scope, an
access returns a fresh root Context wrapping the cached stack. -/
theorem containerAccess_lazy_stack_witness :
    (⟨some 5, 10⟩ : WrapperState).stackRef = some 5
    ∧ containerAccess ⟨some 5, 10⟩ [] = (⟨10, 5, []⟩, ⟨some 5, 11⟩) :=
  ⟨rfl,
   (containerAccess_lazy_stack ⟨some 5, 10⟩ [] ⟨0, 0, []⟩ 5).2.2.2.1 rfl rfl⟩

/-! ## C8: group resolution -/

/-- The pattern the framework module registers for groups.commands:
caret, a, p, p, dot, c, o, m, m, a, n, d, dot — the two regex dots
match any character. -/
def commandsPat : RePat :=
  ⟨true, [.lit 'a', .lit 'p', .lit 'p', .anyc, .lit 'c', .lit 'o', .lit 'm',
    .lit 'm', .lit 'a', .lit 'n', .lit 'd', .anyc]⟩

/-- C8 counterexample: for an unanchored pattern the key is the name
with EVERY occurrence of the pattern removed, not the name with only
the pattern prefix stripped: the group over the single-letter pattern a
applied to the matching name aba produces key b, while stripping the
matched prefix would give ba. -/
theorem resourceGroup_sub_everywhere :
    ResourceGroup.resolve ⟨false, [.lit 'a']⟩ ["aba"] = [("b", "aba")]
    ∧ ("b" : String) ≠ "ba" :=
  ⟨rfl, by decide⟩

/-- C8 (amended): resolving a Group returns a mapping whose values are
the full names, taken over exactly the names across the ambient stack
that match the pattern at the start; the key is the name with every
occurrence of the pattern deleted (regex substitution with an empty
replacement), which for a caret-anchored pattern — such as the
framework's own commands group pattern — is exactly the matched prefix
stripped; in particular registering app.command.build and
app.command.test makes the commands group resolve to the stated
mapping. -/
theorem resourceGroup_resolve_keys (pat : RePat) (names : List String)
    (v : String) (body : List PChar) :
    (v ∈ names → reMatch pat v = true →
      (reSub pat v, v) ∈ ResourceGroup.resolve pat names)
    ∧ (∀ kv ∈ ResourceGroup.resolve pat names,
        kv.2 ∈ names ∧ reMatch pat kv.2 = true ∧ kv.1 = reSub pat kv.2)
    ∧ (reMatch ⟨true, body⟩ v = true →
        reSub ⟨true, body⟩ v = ⟨v.data.drop body.length⟩)
    ∧ ResourceGroup.resolve commandsPat
        ["groups.commands", "app.command", "app.command.build",
         "app.command.test"] =
        [("build", "app.command.build"), ("test", "app.command.test")] := by
  refine ⟨?_, ?_, ?_, rfl⟩
  · intro hv hm
    simp only [ResourceGroup.resolve, findNames, List.mem_map, List.mem_filter]
    exact ⟨v, ⟨hv, hm⟩, rfl⟩
  · intro kv hkv
    simp only [ResourceGroup.resolve, findNames, List.mem_map,
      List.mem_filter] at hkv
    rcases hkv with ⟨a, ⟨ha, ham⟩, hae⟩
    subst hae
    exact ⟨ha, ham, rfl⟩
  · intro hm
    rcases body with _ | ⟨pc, pr⟩
    · simp only [reSub, List.length_nil, List.drop_zero]
    · have hm2 : matchesAt (pc :: pr) v.data = true := hm
      simp [reSub, hm2]

/-- C8 witness: an anchored single-letter pattern strips exactly the
matched prefix. -/
theorem resourceGroup_resolve_keys_witness :
    reMatch ⟨true, [.lit 'x']⟩ "xy" = true
    ∧ reSub ⟨true, [.lit 'x']⟩ "xy" = "y" :=
  ⟨rfl,
   (resourceGroup_resolve_keys ⟨true, [.lit 'x']⟩ [] "xy" [.lit 'x']).2.2.1 rfl⟩

/-! ## C6: scope derivation -/

theorem nodup_keys_val_eq (n : String) (v v2 : PyObj) :
    ∀ l : List (String × PyObj), (l.map Prod.fst).Nodup →
      (n, v) ∈ l → (n, v2) ∈ l → v = v2 := by
  intro l
  induction l with
  | nil =>
    intro _ h1 _
    cases h1
  | cons kv rest ih =>
    intro hn h1 h2
    have hn2 : kv.1 ∉ rest.map Prod.fst ∧ (rest.map Prod.fst).Nodup := by
      rw [List.map_cons, List.nodup_cons] at hn
      exact hn
    rcases List.mem_cons.mp h1 with e1 | m1
    · rcases List.mem_cons.mp h2 with e2 | m2
      · exact congrArg Prod.snd (e1.trans e2.symm)
      · exfalso
        have hmem : n ∈ rest.map Prod.fst := List.mem_map.mpr ⟨(n, v2), m2, rfl⟩
        have hkv1 : kv.1 = n := by rw [← e1]
        exact hn2.1 (hkv1 ▸ hmem)
    · rcases List.mem_cons.mp h2 with e2 | m2
      · exfalso
        have hmem : n ∈ rest.map Prod.fst := List.mem_map.mpr ⟨(n, v), m1, rfl⟩
        have hkv1 : kv.1 = n := by rw [← e2]
        exact hn2.1 (hkv1 ▸ hmem)
      · exact ih hn2.2 m1 m2

theorem newFromLoop_preserves (items : List (String × PyObj)) :
    ∀ (a : Alloc) (h : DHeap) (orr r : Nat), r ≠ orr →
      dget (Context.newFromLoop a items h orr).1 r = dget h r := by
  induction items with
  | nil =>
    intro a h orr r _
    rfl
  | cons kv0 rest ih =>
    intro a h orr r hr
    rcases kv0 with ⟨name0, v0⟩
    have heq : Context.newFromLoop a ((name0, v0) :: rest) h orr =
        if (olookup (dget h orr) name0).isNone && v0.cloneable then
          Context.newFromLoop ⟨a.nextRef + 1⟩ rest
            (dset h orr (dget h orr ++ [(name0, ⟨a.nextRef, v0.cloneable⟩)])) orr
        else Context.newFromLoop a rest h orr := rfl
    rw [heq]
    by_cases hc : ((olookup (dget h orr) name0).isNone && v0.cloneable) = true
    · rw [if_pos hc, ih _ _ _ _ hr]
      exact dget_dset_ne h orr r _ (Ne.symm hr)
    · rw [if_neg hc, ih _ _ _ _ hr]


/-- Invariants of the new_from seeding loop: the runtime dict at orr
only grows by appended entries cloned from cloneable loop items; and
every cloneable item whose name was absent from the runtime dict ends
up bound to a clone with the same capability and a reference allocated
at or after the starting allocator position. -/
theorem newFromLoop_spec (items : List (String × PyObj)) :
    ∀ (a : Alloc) (h : DHeap) (orr : Nat), orr < h.length →
      (items.map Prod.fst).Nodup →
      ((∃ ext, dget (Context.newFromLoop a items h orr).1 orr =
            dget h orr ++ ext
          ∧ ∀ kv ∈ ext, ∃ v2 : PyObj, (kv.1, v2) ∈ items ∧ v2.cloneable = true)
       ∧ (∀ n v, (n, v) ∈ items → olookup (dget h orr) n = none →
            v.cloneable = true →
            ∃ cv, olookup (dget (Context.newFromLoop a items h orr).1 orr) n =
                some cv
              ∧ cv.cloneable = true ∧ a.nextRef ≤ cv.ref)) := by
  induction items with
  | nil =>
    intro a h orr _ _
    refine ⟨⟨[], by simp [Context.newFromLoop], ?_⟩, ?_⟩
    · intro kv hkv
      cases hkv
    · intro n v hnv
      cases hnv
  | cons kv0 rest ih =>
    intro a h orr horr hkeys
    rcases kv0 with ⟨name0, v0⟩
    have hk : name0 ∉ rest.map Prod.fst ∧ (rest.map Prod.fst).Nodup := by
      rw [List.map_cons, List.nodup_cons] at hkeys
      exact hkeys
    have heq : Context.newFromLoop a ((name0, v0) :: rest) h orr =
        if (olookup (dget h orr) name0).isNone && v0.cloneable then
          Context.newFromLoop ⟨a.nextRef + 1⟩ rest
            (dset h orr (dget h orr ++ [(name0, ⟨a.nextRef, v0.cloneable⟩)])) orr
        else Context.newFromLoop a rest h orr := rfl
    by_cases hc : ((olookup (dget h orr) name0).isNone && v0.cloneable) = true
    · have hc2 : (olookup (dget h orr) name0).isNone = true
          ∧ v0.cloneable = true := by
        simpa [Bool.and_eq_true] using hc
      have hno0 : olookup (dget h orr) name0 = none :=
        Option.isNone_iff_eq_none.mp hc2.1
      have hcl0 : v0.cloneable = true := hc2.2
      have horr2 : orr <
          (dset h orr
            (dget h orr ++ [(name0, ⟨a.nextRef, v0.cloneable⟩)])).length := by
        rw [dset_length]
        exact horr
      have hget2 :
          dget (dset h orr
            (dget h orr ++ [(name0, ⟨a.nextRef, v0.cloneable⟩)])) orr =
          dget h orr ++ [(name0, ⟨a.nextRef, v0.cloneable⟩)] :=
        dget_dset_self h orr _ horr
      obtain ⟨⟨ext2, hd2, hext2⟩, hseed2⟩ :=
        ih ⟨a.nextRef + 1⟩
          (dset h orr (dget h orr ++ [(name0, ⟨a.nextRef, v0.cloneable⟩)]))
          orr horr2 hk.2
      rw [heq, if_pos hc]
      constructor
      · refine ⟨(name0, ⟨a.nextRef, v0.cloneable⟩) :: ext2, ?_, ?_⟩
        · rw [hd2, hget2, List.append_assoc]
          rfl
        · intro kv hkv
          rcases List.mem_cons.mp hkv with e | m
          · rw [e]
            exact ⟨v0, List.mem_cons_self _ _, hcl0⟩
          · rcases hext2 kv m with ⟨v2, hv2, hv2c⟩
            exact ⟨v2, List.mem_cons_of_mem _ hv2, hv2c⟩
      · intro n v hnv hno hcl
        rcases List.mem_cons.mp hnv with e | m
        · injection e with hn0 hv0
          subst hn0
          subst hv0
          have hl2 : olookup (dget (dset h orr
              (dget h orr ++ [(n, ⟨a.nextRef, v.cloneable⟩)])) orr) n =
              some ⟨a.nextRef, v.cloneable⟩ := by
            rw [hget2, olookup_append, hno, olookup_cons, if_pos rfl,
              Option.none_or]
          refine ⟨⟨a.nextRef, v.cloneable⟩, ?_, hcl, Nat.le_refl _⟩
          rw [hd2, olookup_append, hl2]
          rfl
        · have hn_ne : n ≠ name0 := by
            intro he
            apply hk.1
            rw [← he]
            exact List.mem_map.mpr ⟨(n, v), m, rfl⟩
          have hno2 : olookup (dget (dset h orr
              (dget h orr ++ [(name0, ⟨a.nextRef, v0.cloneable⟩)])) orr) n =
              none := by
            rw [hget2, olookup_append, hno, olookup_cons,
              if_neg (fun he : name0 = n => hn_ne he.symm), Option.none_or]
            rfl
          rcases hseed2 n v m hno2 hcl with ⟨cv, hcva, hcvb, hcvc⟩
          exact ⟨cv, hcva, hcvb, Nat.le_trans (Nat.le_succ _) hcvc⟩
    · rw [heq, if_neg hc]
      obtain ⟨⟨ext2, hd2, hext2⟩, hseed2⟩ := ih a h orr horr hk.2
      constructor
      · refine ⟨ext2, hd2, ?_⟩
        intro kv hkv
        rcases hext2 kv hkv with ⟨v2, hv2, hv2c⟩
        exact ⟨v2, List.mem_cons_of_mem _ hv2, hv2c⟩
      · intro n v hnv hno hcl
        rcases List.mem_cons.mp hnv with e | m
        · exfalso
          injection e with hn0 hv0
          subst hn0
          subst hv0
          apply hc
          rw [hno, hcl]
          rfl
        · exact hseed2 n v m hno hcl

/-- C6: deriving a child scope seeds the runtime dict with the given
overrides (which stay bound as given), plus — for every entry of the
parent's cache not already present in the overrides — a clone of the
cached value when it is clone-capable: a fresh object, distinct from
the parent's cached object, with the same capability; values without
the clone capability are not copied forward; and the parent's cache
dict is left completely untouched by the derivation. -/
theorem context_new_from (h : DHeap) (a : Alloc) (pr orr : Nat)
    (hne : pr ≠ orr) (horr : orr < h.length)
    (hkeys : ((dget h pr).map Prod.fst).Nodup)
    (hbound : ∀ kv ∈ dget h pr, kv.2.ref < a.nextRef) :
    dget (Context.newFrom h a pr orr).1 pr = dget h pr
    ∧ (∀ n w, olookup (dget h orr) n = some w →
        olookup (dget (Context.newFrom h a pr orr).1 orr) n = some w)
    ∧ (∀ n v, (n, v) ∈ dget h pr → olookup (dget h orr) n = none →
        v.cloneable = true →
        ∃ cv, olookup (dget (Context.newFrom h a pr orr).1 orr) n = some cv
          ∧ cv.cloneable = true ∧ cv.ref ≠ v.ref)
    ∧ (∀ n v, (n, v) ∈ dget h pr → olookup (dget h orr) n = none →
        v.cloneable = false →
        olookup (dget (Context.newFrom h a pr orr).1 orr) n = none) := by
  rcases newFromLoop_spec (dget h pr) a h orr horr hkeys with
    ⟨⟨ext, hd, hext⟩, hseed⟩
  refine ⟨newFromLoop_preserves (dget h pr) a h orr pr hne, ?_, ?_, ?_⟩
  · intro n w hw
    show olookup (dget (Context.newFromLoop a (dget h pr) h orr).1 orr) n =
      some w
    rw [hd, olookup_append, hw]
    rfl
  · intro n v hnv hno hcl
    rcases hseed n v hnv hno hcl with ⟨cv, hcva, hcvb, hcvc⟩
    refine ⟨cv, hcva, hcvb, ?_⟩
    have hvb := hbound (n, v) hnv
    simp only at hvb
    omega
  · intro n v hnv hno hcl
    have hnotin : n ∉ ext.map Prod.fst := by
      intro hmem
      rcases List.mem_map.mp hmem with ⟨kv, hkv, hkv1⟩
      rcases hext kv hkv with ⟨v2, hv2, hv2c⟩
      rw [hkv1] at hv2
      have hvv := nodup_keys_val_eq n v v2 (dget h pr) hkeys hnv hv2
      rw [← hvv, hcl] at hv2c
      cases hv2c
    show olookup (dget (Context.newFromLoop a (dget h pr) h orr).1 orr) n = none
    rw [hd, olookup_append, hno, Option.none_or]
    exact olookup_eq_none_of_not_mem ext n hnotin

/-- A two-dict heap: the parent cache at address 0 holds a cloneable
object a, a non-cloneable object b and a cloneable object c; the
runtime-overrides dict at address 1 already binds c. -/
def exampleHeap : DHeap :=
  [[("a", ⟨0, true⟩), ("b", ⟨1, false⟩), ("c", ⟨2, true⟩)],
   [("c", ⟨3, true⟩)]]

/-- C6 witness: deriving from the example parent seeds the child's
cache with a fresh clone of the parent's cached object a, whose
identity differs from the parent's. -/
theorem context_new_from_witness :
    (0 : Nat) ≠ 1
    ∧ ("a", (⟨0, true⟩ : PyObj)) ∈ dget exampleHeap 0
    ∧ olookup (dget exampleHeap 1) "a" = none
    ∧ (∃ cv, olookup (dget (Context.newFrom exampleHeap ⟨4⟩ 0 1).1 1) "a" =
        some cv ∧ cv.cloneable = true ∧ cv.ref ≠ (0 : Nat)) :=
  ⟨by decide, by decide, rfl,
   (context_new_from exampleHeap ⟨4⟩ 0 1 (by decide) (by decide) (by decide)
     (by decide)).2.2.1 "a" ⟨0, true⟩ (by decide) rfl rfl⟩
